import Mathlib

/-!
Verification development for the stack_string repository
(include/stack_string.hpp and include/fixed_buf_allocator.hpp).

Bytes are modelled as natural numbers (the terminator is 0); the inline
character array m_data of StackString is modelled as a total function
from indices to bytes, so that uninitialized stack memory can be
represented faithfully by an arbitrary initial function, and the
operations write exactly the cells the C++ code writes.  size_t values
are natural numbers; in FixedBufAllocator.allocate, where unsigned
wrap-around is reachable, arithmetic is taken mod 2^64 explicitly.
-/

/-- Write a single byte: models an assignment d[i] = v. -/
def store (d : Nat → Nat) (i v : Nat) : Nat → Nat :=
  fun j => if j = i then v else d j

/-- Models std::copy(src.begin(), src.end(), d + start): the bytes of
src overwrite d at positions [start, start + src.length). -/
def copyList (src : List Nat) (start : Nat) (d : Nat → Nat) : Nat → Nat :=
  fun j => if start ≤ j ∧ j < start + src.length then src.getD (j - start) 0 else d j

/-- Models std::copy(src, src + count, d): the first count cells of the
byte function src overwrite d at positions [0, count). -/
def copyPrefixBytes (src : Nat → Nat) (count : Nat) (d : Nat → Nat) : Nat → Nat :=
  fun j => if j < count then src j else d j

/-- Models std::fill(d + lo, d + hi, v). -/
def fillRange (d : Nat → Nat) (lo hi v : Nat) : Nat → Nat :=
  fun j => if lo ≤ j ∧ j < hi then v else d j

/-- std::strlen on a byte sequence: the number of bytes before the first
0 byte.  A non-null char pointer is modelled as the list of bytes laid
out in memory from it; strlen scans to the first terminator. -/
def strlenList (l : List Nat) : Nat :=
  (l.takeWhile (fun b => b != 0)).length

/-- The canonical decimal representation of an integer as ASCII bytes,
as produced by std::to_chars: minimal decimal digits, with a leading
0x2D sign byte for negative values. -/
def decRepr (v : Int) : List Nat :=
  if v < 0 then 45 :: (Nat.toDigits 10 v.natAbs).map Char.toNat
  else (Nat.toDigits 10 v.natAbs).map Char.toNat

/-- StackString<N> from include/stack_string.hpp: an inline byte array
m_data of N+1 cells (modelled as a total byte function) and a size
m_size.  Only the cells the C++ code writes are ever changed. -/
@[ext]
structure StackString (N : Nat) where
  data : Nat → Nat
  size : Nat

/-- Default constructor StackString(): m_size = 0, m_data[0] = 0.
The remaining cells keep the arbitrary initial stack contents g. -/
def StackString.mkEmpty (N : Nat) (g : Nat → Nat) : StackString N :=
  { data := store g 0 0, size := 0 }

/-- append(const char* str): null check, strlen, bounded copy of
to_copy = min(len, N - m_size) bytes at m_data + m_size, then
m_size += to_copy and m_data[m_size] = 0.  A null pointer is `none`;
a non-null pointer is `some l` where l is the byte sequence in memory
at the pointer (strlen stops at the first 0 byte of l). -/
def StackString.appendCStr {N : Nat} (s : StackString N) (str : Option (List Nat)) :
    StackString N :=
  match str with
  | none => s
  | some l =>
    let len := strlenList l
    let space := N - s.size
    let toCopy := if len > space then space else len
    let d := copyList (l.take toCopy) s.size s.data
    { data := store d (s.size + toCopy) 0, size := s.size + toCopy }

/-- append(std::string_view sv): bounded copy of
to_copy = min(sv.size, N - m_size) bytes at m_data + m_size, then
m_size += to_copy and m_data[m_size] = 0. -/
def StackString.appendView {N : Nat} (s : StackString N) (sv : List Nat) :
    StackString N :=
  let space := N - s.size
  let toCopy := if sv.length > space then space else sv.length
  let d := copyList (sv.take toCopy) s.size s.data
  { data := store d (s.size + toCopy) 0, size := s.size + toCopy }

/-- append(char c): no-op when m_size >= N, otherwise write c at
m_size, increment m_size, and re-terminate. -/
def StackString.appendChar {N : Nat} (s : StackString N) (c : Nat) : StackString N :=
  if s.size ≥ N then s
  else { data := store (store s.data s.size c) (s.size + 1) 0, size := s.size + 1 }

/-- append(T value) for integral T: std::to_chars into the range
[m_data + m_size, m_data + N); on success m_size = ptr - m_data and
m_data[m_size] = 0, on failure (value_too_large) nothing is committed.
to_chars succeeds exactly when the decimal representation fits in the
range, and then writes it there; on failure it writes nothing (it
computes the required digit count before writing). -/
def StackString.appendInt {N : Nat} (s : StackString N) (v : Int) : StackString N :=
  let repr := decRepr v
  if repr.length ≤ N - s.size then
    { data := store (copyList repr s.size s.data) (s.size + repr.length) 0,
      size := s.size + repr.length }
  else s

/-- Constructor StackString(const char* str): m_size = 0 then
append(str).  Note that m_data[0] is NOT pre-initialized: when str is
null, append returns immediately and no terminator is written, so the
storage keeps the arbitrary initial contents g. -/
def StackString.mkFromCStr (N : Nat) (g : Nat → Nat) (str : Option (List Nat)) :
    StackString N :=
  StackString.appendCStr { data := g, size := 0 } str

/-- Constructor StackString(std::string_view sv): m_size = 0 then
append(sv) (which always re-terminates). -/
def StackString.mkFromView (N : Nat) (g : Nat → Nat) (sv : List Nat) : StackString N :=
  StackString.appendView { data := g, size := 0 } sv

/-- One argument of the variadic constructor / operator chain: each of
the four append overloads. -/
inductive AppendArg where
  | cstr : Option (List Nat) → AppendArg
  | view : List Nat → AppendArg
  | chr : Nat → AppendArg
  | int : Int → AppendArg

/-- Dispatch of append on one argument, as overload resolution does. -/
def StackString.appendArg {N : Nat} (s : StackString N) : AppendArg → StackString N
  | .cstr o => s.appendCStr o
  | .view l => s.appendView l
  | .chr c => s.appendChar c
  | .int v => s.appendInt v

/-- Variadic constructor StackString(Args&&... args): m_size = 0,
m_data[0] = 0, then a left-to-right fold expression of append over the
arguments. -/
def StackString.mkVariadic (N : Nat) (g : Nat → Nat) (args : List AppendArg) :
    StackString N :=
  args.foldl StackString.appendArg { data := store g 0 0, size := 0 }

/-- Copy constructor: m_size = other.m_size and
std::copy(other.m_data, other.m_data + m_size + 1, m_data) — the
m_size + 1 bytes including the terminator; cells above that keep the
arbitrary initial contents g of the new object. -/
def StackString.copyCtor {N : Nat} (g : Nat → Nat) (other : StackString N) :
    StackString N :=
  { data := copyPrefixBytes other.data (other.size + 1) g, size := other.size }

/-- Copy assignment (for distinct objects): same copy as the copy
constructor, into the destination object dest. -/
def StackString.copyAssign {N : Nat} (dest other : StackString N) : StackString N :=
  { data := copyPrefixBytes other.data (other.size + 1) dest.data, size := other.size }

/-- clear(): m_size = 0 and m_data[0] = 0. -/
def StackString.clear {N : Nat} (s : StackString N) : StackString N :=
  { data := store s.data 0 0, size := 0 }

/-- Move constructor: full copy of other (m_size + 1 bytes) followed by
other.clear().  Returns the pair (new object, moved-from source). -/
def StackString.moveCtor {N : Nat} (g : Nat → Nat) (other : StackString N) :
    StackString N × StackString N :=
  ({ data := copyPrefixBytes other.data (other.size + 1) g, size := other.size },
   other.clear)

/-- Move assignment (for distinct objects): full copy into dest
followed by other.clear().  Returns the pair (dest, moved-from source). -/
def StackString.moveAssign {N : Nat} (dest other : StackString N) :
    StackString N × StackString N :=
  ({ data := copyPrefixBytes other.data (other.size + 1) dest.data, size := other.size },
   other.clear)

/-- resize(count, ch): clamp count to N, fill [m_size, count) with ch
when growing, set m_size = count, re-terminate. -/
def StackString.resize {N : Nat} (s : StackString N) (count ch : Nat) : StackString N :=
  let c := if count > N then N else count
  let d := if c > s.size then fillRange s.data s.size c ch else s.data
  { data := store d c 0, size := c }

/-- operator+=(const char*): returns append(str). -/
def StackString.opPlusEqCStr {N : Nat} (s : StackString N) (str : Option (List Nat)) :
    StackString N :=
  s.appendCStr str

/-- operator+=(std::string_view): returns append(sv). -/
def StackString.opPlusEqView {N : Nat} (s : StackString N) (sv : List Nat) :
    StackString N :=
  s.appendView sv

/-- operator+=(char): returns append(c). -/
def StackString.opPlusEqChar {N : Nat} (s : StackString N) (c : Nat) : StackString N :=
  s.appendChar c

/-- operator+= for integral T: returns append(value). -/
def StackString.opPlusEqInt {N : Nat} (s : StackString N) (v : Int) : StackString N :=
  s.appendInt v

/-- operator<<(T&&): perfect-forwards its argument to append, for every
supported argument kind. -/
def StackString.opShl {N : Nat} (s : StackString N) (a : AppendArg) : StackString N :=
  s.appendArg a

/-- The logical content of the string: the bytes at [0, m_size). -/
def StackString.content {N : Nat} (s : StackString N) : List Nat :=
  (List.range s.size).map s.data

/-- The states of a StackString<N> observable through its public
interface: immediately after any constructor and closed under every
mutating operation — with the single exception of the char-pointer
constructor invoked with a null pointer, which leaves the storage
unterminated (see the C1 counterexample below) and is therefore
excluded here: the char-pointer constructor case covers exactly the
non-null inputs. -/
inductive StackString.Reached (N : Nat) : StackString N → Prop where
  | mkEmpty (g) : Reached N (StackString.mkEmpty N g)
  | mkFromCStr (g l) : Reached N (StackString.mkFromCStr N g (some l))
  | mkFromView (g sv) : Reached N (StackString.mkFromView N g sv)
  | mkVariadic (g args) : Reached N (StackString.mkVariadic N g args)
  | copyCtor (g s) : Reached N s → Reached N (StackString.copyCtor g s)
  | copyAssign (d s) : Reached N d → Reached N s → Reached N (StackString.copyAssign d s)
  | moveCtorDst (g s) : Reached N s → Reached N (StackString.moveCtor g s).1
  | moveCtorSrc (g s) : Reached N s → Reached N (StackString.moveCtor g s).2
  | moveAssignDst (d s) : Reached N d → Reached N s →
      Reached N (StackString.moveAssign d s).1
  | moveAssignSrc (d s) : Reached N d → Reached N s →
      Reached N (StackString.moveAssign d s).2
  | appendCStr (s str) : Reached N s → Reached N (StackString.appendCStr s str)
  | appendView (s sv) : Reached N s → Reached N (StackString.appendView s sv)
  | appendChar (s c) : Reached N s → Reached N (StackString.appendChar s c)
  | appendInt (s v) : Reached N s → Reached N (StackString.appendInt s v)
  | clear (s) : Reached N s → Reached N (StackString.clear s)
  | resize (s count ch) : Reached N s → Reached N (StackString.resize s count ch)

/-- The size_t modulus: unsigned 64-bit arithmetic wraps mod 2^64. -/
def sizetMod : Nat := 2 ^ 64

/-- FixedBufAllocator<T> from include/fixed_buf_allocator.hpp: a
non-owning char pointer m_buffer (none models a null pointer, some a
models the address a), a byte capacity, and a bump offset m_used.
elemSize models sizeof(T) for the instantiating element type T. -/
structure FixedBufAllocator where
  elemSize : Nat
  buffer : Option Nat
  capacity : Nat
  used : Nat

/-- Constructor FixedBufAllocator(void* buffer, std::size_t capacity):
m_used starts at 0. -/
def FixedBufAllocator.ofBuffer (elemSize : Nat) (buffer : Option Nat)
    (capacity : Nat) : FixedBufAllocator :=
  { elemSize := elemSize, buffer := buffer, capacity := capacity, used := 0 }

/-- allocate(n): bytes = n * sizeof(T); when the buffer is non-null and
m_used + bytes <= m_capacity (size_t arithmetic, mod 2^64), return the
pointer m_buffer + m_used and advance m_used by bytes; otherwise
return nullptr with m_used unchanged.  Result: (returned pointer, new
allocator state). -/
def FixedBufAllocator.allocate (a : FixedBufAllocator) (n : Nat) :
    Option Nat × FixedBufAllocator :=
  let bytes := n * a.elemSize % sizetMod
  match a.buffer with
  | some base =>
    if (a.used + bytes) % sizetMod ≤ a.capacity then
      (some (base + a.used), { a with used := (a.used + bytes) % sizetMod })
    else (none, a)
  | none => (none, a)

/-- deallocate(T*, std::size_t): a no-op for the monotonic allocator. -/
def FixedBufAllocator.deallocate (a : FixedBufAllocator) (_p _n : Nat) :
    FixedBufAllocator :=
  a

/-- The rebinding copy constructor FixedBufAllocator(const
FixedBufAllocator<U>& other): shares m_buffer, m_capacity and m_used,
for the new element type of byte size newElemSize. -/
def FixedBufAllocator.rebindTo (a : FixedBufAllocator) (newElemSize : Nat) :
    FixedBufAllocator :=
  { elemSize := newElemSize, buffer := a.buffer, capacity := a.capacity, used := a.used }

/-- operator==: two allocators are equal iff they share the same buffer
address. -/
def FixedBufAllocator.beqAlloc (a b : FixedBufAllocator) : Bool :=
  a.buffer == b.buffer

/-- operator!=: negation of operator==. -/
def FixedBufAllocator.bneAlloc (a b : FixedBufAllocator) : Bool :=
  !(a.beqAlloc b)

/-! ## Well-formedness: trailing terminator and bounded size -/

/-- The representation invariant of StackString<N>: the byte at index
m_size is the terminator 0 and m_size never exceeds N. -/
def StackString.WF {N : Nat} (s : StackString N) : Prop :=
  s.data s.size = 0 ∧ s.size ≤ N

theorem StackString.wf_mkEmpty (N : Nat) (g : Nat → Nat) :
    (StackString.mkEmpty N g).WF :=
  ⟨by simp [StackString.mkEmpty, store], Nat.zero_le N⟩

theorem StackString.wf_appendView {N : Nat} (s : StackString N) (sv : List Nat)
    (h : s.size ≤ N) : (s.appendView sv).WF := by
  constructor
  · simp [StackString.appendView, store]
  · simp only [StackString.appendView]
    split <;> omega

theorem StackString.wf_appendCStr_some {N : Nat} (s : StackString N) (l : List Nat)
    (h : s.size ≤ N) : (s.appendCStr (some l)).WF := by
  constructor
  · simp [StackString.appendCStr, store]
  · simp only [StackString.appendCStr]
    split <;> omega

theorem StackString.wf_appendCStr {N : Nat} (s : StackString N)
    (str : Option (List Nat)) (h : s.WF) : (s.appendCStr str).WF := by
  cases str with
  | none => exact h
  | some l => exact s.wf_appendCStr_some l h.2

theorem StackString.wf_appendChar {N : Nat} (s : StackString N) (c : Nat)
    (h : s.WF) : (s.appendChar c).WF := by
  unfold StackString.appendChar
  split
  · exact h
  · exact ⟨by simp [store], by show s.size + 1 ≤ N; omega⟩

theorem StackString.wf_appendInt {N : Nat} (s : StackString N) (v : Int)
    (h : s.WF) : (s.appendInt v).WF := by
  obtain ⟨h1, h2⟩ := h
  simp only [StackString.appendInt]
  split
  · exact ⟨by simp [store], by show s.size + (decRepr v).length ≤ N; omega⟩
  · exact ⟨h1, h2⟩

theorem StackString.wf_clear {N : Nat} (s : StackString N) : s.clear.WF :=
  ⟨by simp [StackString.clear, store], Nat.zero_le N⟩

theorem StackString.wf_resize {N : Nat} (s : StackString N) (count ch : Nat) :
    (s.resize count ch).WF := by
  constructor
  · simp [StackString.resize, store]
  · simp only [StackString.resize]
    split <;> omega

theorem StackString.wf_copyCtor {N : Nat} (g : Nat → Nat) (other : StackString N)
    (h : other.WF) : (StackString.copyCtor g other).WF := by
  obtain ⟨h1, h2⟩ := h
  refine ⟨?_, h2⟩
  simp only [StackString.copyCtor, copyPrefixBytes]
  split
  · exact h1
  · omega

theorem StackString.wf_copyAssign {N : Nat} (dest other : StackString N)
    (h : other.WF) : (StackString.copyAssign dest other).WF := by
  obtain ⟨h1, h2⟩ := h
  refine ⟨?_, h2⟩
  simp only [StackString.copyAssign, copyPrefixBytes]
  split
  · exact h1
  · omega

theorem StackString.wf_moveCtorDst {N : Nat} (g : Nat → Nat) (other : StackString N)
    (h : other.WF) : (StackString.moveCtor g other).1.WF :=
  StackString.wf_copyCtor g other h

theorem StackString.wf_moveAssignDst {N : Nat} (dest other : StackString N)
    (h : other.WF) : (StackString.moveAssign dest other).1.WF :=
  StackString.wf_copyAssign dest other h

theorem StackString.wf_appendArg {N : Nat} (s : StackString N) (a : AppendArg)
    (h : s.WF) : (s.appendArg a).WF := by
  cases a with
  | cstr o => exact s.wf_appendCStr o h
  | view l => exact s.wf_appendView l h.2
  | chr c => exact s.wf_appendChar c h
  | int v => exact s.wf_appendInt v h

theorem StackString.wf_foldlAppend {N : Nat} (args : List AppendArg) :
    ∀ s : StackString N, s.WF → (args.foldl StackString.appendArg s).WF := by
  induction args with
  | nil => exact fun s h => h
  | cons a t ih => exact fun s h => ih _ (s.wf_appendArg a h)

theorem StackString.wf_mkVariadic (N : Nat) (g : Nat → Nat) (args : List AppendArg) :
    (StackString.mkVariadic N g args).WF :=
  StackString.wf_foldlAppend args _ ⟨by simp [store], Nat.zero_le N⟩

/-- Claim C1 (amended): for every capacity N, in every observable state
of a StackString<N> — immediately after any constructor and after
every mutating operation — the storage byte at index length is the
terminator 0 and length ≤ N, with the single exception forced by the
counterexample below: the constructor from a raw byte-sequence pointer
invoked with a null pointer, which never writes the terminator.  The
Reached predicate enumerates exactly the observable states minus that
one case. -/
theorem stackString_terminator_invariant (N : Nat) (s : StackString N)
    (h : StackString.Reached N s) : s.data s.size = 0 ∧ s.size ≤ N := by
  induction h with
  | mkEmpty g => exact StackString.wf_mkEmpty N g
  | mkFromCStr g l => exact StackString.wf_appendCStr_some _ l (Nat.zero_le N)
  | mkFromView g sv => exact StackString.wf_appendView _ sv (Nat.zero_le N)
  | mkVariadic g args => exact StackString.wf_mkVariadic N g args
  | copyCtor g s hs ih => exact StackString.wf_copyCtor g s ih
  | copyAssign d s hd hs ihd ihs => exact StackString.wf_copyAssign d s ihs
  | moveCtorDst g s hs ih => exact StackString.wf_moveCtorDst g s ih
  | moveCtorSrc g s hs ih => exact StackString.wf_clear s
  | moveAssignDst d s hd hs ihd ihs => exact StackString.wf_moveAssignDst d s ihs
  | moveAssignSrc d s hd hs ihd ihs => exact StackString.wf_clear s
  | appendCStr s str hs ih => exact StackString.wf_appendCStr s str ih
  | appendView s sv hs ih => exact StackString.wf_appendView s sv ih.2
  | appendChar s c hs ih => exact StackString.wf_appendChar s c ih
  | appendInt s v hs ih => exact StackString.wf_appendInt s v ih
  | clear s hs ih => exact StackString.wf_clear s
  | resize s count ch hs ih => exact StackString.wf_resize s count ch

/-- Claim C1, counterexample: the constructor StackString(const char*)
invoked with a null pointer performs no write at all (append returns
early and m_data[0] was never initialized), so with initial stack
contents that are all 1 the byte at index length = 0 is 1, not the
terminator.  This refutes the claim as stated for the
from-raw-byte-sequence constructor. -/
theorem stackString_terminator_invariant_cex :
    ¬ ((StackString.mkFromCStr 4 (fun _ => 1) none).data
        (StackString.mkFromCStr 4 (fun _ => 1) none).size = 0) := by
  decide

/-- Claim C1, witness: the amended invariant theorem applied to the
concrete state obtained from the default constructor at capacity 4. -/
theorem stackString_terminator_invariant_witness :
    (StackString.mkEmpty 4 (fun _ => 7)).data (StackString.mkEmpty 4 (fun _ => 7)).size = 0
    ∧ (StackString.mkEmpty 4 (fun _ => 7)).size ≤ 4 :=
  stackString_terminator_invariant 4 _ (StackString.Reached.mkEmpty (fun _ => 7))

/-! ## Content of the logical byte range -/

theorem StackString.length_content {N : Nat} (s : StackString N) :
    s.content.length = s.size := by
  simp [StackString.content]

theorem StackString.content_write {N : Nat} (s : StackString N) (u : List Nat) :
    ((⟨store (copyList u s.size s.data) (s.size + u.length) 0,
        s.size + u.length⟩ : StackString N)).content = s.content ++ u := by
  apply List.ext_getElem
  · simp [StackString.content]
  · intro i h1 h2
    simp only [StackString.content, List.length_map, List.length_range] at h1
    simp only [StackString.content, List.getElem_map, List.getElem_range, store, copyList]
    by_cases hi : i < s.size
    · rw [if_neg (by omega), if_neg (by omega),
        List.getElem_append_left (by simp [StackString.content]; omega)]
      simp [StackString.content]
    · rw [if_neg (by omega), if_pos (by omega),
        List.getElem_append_right (by simp [StackString.content]; omega)]
      simp only [StackString.content, List.length_map, List.length_range]
      exact List.getD_eq_getElem u 0 (by omega)

theorem StackString.appendView_eq {N : Nat} (s : StackString N) (sv : List Nat) :
    s.appendView sv
      = ⟨store (copyList (sv.take (min sv.length (N - s.size))) s.size s.data)
          (s.size + min sv.length (N - s.size)) 0,
         s.size + min sv.length (N - s.size)⟩ := by
  have hmin : (if sv.length > N - s.size then N - s.size else sv.length)
      = min sv.length (N - s.size) := by
    split <;> omega
  simp [StackString.appendView, hmin]

theorem StackString.size_appendView {N : Nat} (s : StackString N) (sv : List Nat) :
    (s.appendView sv).size = s.size + min sv.length (N - s.size) := by
  rw [StackString.appendView_eq]

theorem StackString.content_appendView {N : Nat} (s : StackString N) (sv : List Nat) :
    (s.appendView sv).content = s.content ++ sv.take (min sv.length (N - s.size)) := by
  have hl : (sv.take (min sv.length (N - s.size))).length
      = min sv.length (N - s.size) := by
    rw [List.length_take]
    omega
  have h := StackString.content_write s (sv.take (min sv.length (N - s.size)))
  rw [hl] at h
  rw [StackString.appendView_eq]
  exact h

theorem StackString.terminator_appendView {N : Nat} (s : StackString N) (sv : List Nat) :
    (s.appendView sv).data (s.appendView sv).size = 0 := by
  simp [StackString.appendView, store]

theorem StackString.appendCStr_some_eq_appendView {N : Nat} (s : StackString N)
    (l : List Nat) (h : ∀ b ∈ l, b ≠ 0) :
    s.appendCStr (some l) = s.appendView l := by
  have hw : l.takeWhile (fun b => b != 0) = l :=
    List.takeWhile_eq_self_iff.mpr (by intro x hx; simpa using h x hx)
  simp [StackString.appendCStr, StackString.appendView, strlenList, hw]

theorem StackString.appendCStr_none {N : Nat} (s : StackString N) :
    s.appendCStr none = s :=
  rfl

theorem StackString.size_mkFromView (N : Nat) (g : Nat → Nat) (sv : List Nat) :
    (StackString.mkFromView N g sv).size = min N sv.length := by
  rw [StackString.mkFromView, StackString.size_appendView]
  simp [Nat.min_comm]

theorem StackString.content_mkFromView (N : Nat) (g : Nat → Nat) (sv : List Nat) :
    (StackString.mkFromView N g sv).content = sv.take (min N sv.length) := by
  rw [StackString.mkFromView, StackString.content_appendView]
  have : (({ data := g, size := 0 } : StackString N)).content = [] := by
    simp [StackString.content]
  rw [this]
  simp [Nat.min_comm]

/-- Claim C2: for every StackString<N> with length ≤ N, appending a
view or a non-null byte sequence copies exactly min(len, N - length)
bytes at the tail (content becomes old content followed by that prefix
of the input), advances length by the copied count, and re-terminates;
the operation is total (no error signal), and a null input leaves the
string unchanged.  On a fresh container the resulting length is
min(N, len) and the content is the first length bytes of the input. -/
theorem stackString_append_truncates (N : Nat) (s : StackString N) (_h : s.size ≤ N)
    (sv l : List Nat) (hl : ∀ b ∈ l, b ≠ 0) (g : Nat → Nat) :
    ((s.appendView sv).size = s.size + min sv.length (N - s.size)
      ∧ (s.appendView sv).content = s.content ++ sv.take (min sv.length (N - s.size))
      ∧ (s.appendView sv).data (s.appendView sv).size = 0)
    ∧ ((s.appendCStr (some l)).size = s.size + min l.length (N - s.size)
      ∧ (s.appendCStr (some l)).content = s.content ++ l.take (min l.length (N - s.size))
      ∧ (s.appendCStr (some l)).data (s.appendCStr (some l)).size = 0)
    ∧ s.appendCStr none = s
    ∧ (StackString.mkFromView N g sv).size = min N sv.length
    ∧ (StackString.mkFromView N g sv).content = sv.take (min N sv.length) := by
  have he := StackString.appendCStr_some_eq_appendView s l hl
  refine ⟨⟨StackString.size_appendView s sv, StackString.content_appendView s sv,
      StackString.terminator_appendView s sv⟩,
    ⟨?_, ?_, ?_⟩,
    StackString.appendCStr_none s,
    StackString.size_mkFromView N g sv,
    StackString.content_mkFromView N g sv⟩
  · rw [he]; exact StackString.size_appendView s l
  · rw [he]; exact StackString.content_appendView s l
  · rw [he]; exact StackString.terminator_appendView s l

/-- Claim C2, witness: the theorem applied at capacity 8 to the
default-constructed string, a two-byte view and a one-byte sequence;
here the projection to the null-input case. -/
theorem stackString_append_truncates_witness :
    (StackString.mkEmpty 8 (fun _ => 0)).appendCStr none
      = StackString.mkEmpty 8 (fun _ => 0) :=
  (stackString_append_truncates 8 (StackString.mkEmpty 8 (fun _ => 0)) (by decide)
    [65, 66] [67] (by decide) (fun _ => 0)).2.2.1

/-- Claim C3: integer append is atomic.  If the decimal representation
of v fits in the remaining space N - length, it is committed in full at
the tail and length and terminator are updated; otherwise the call
returns the string completely unchanged.  No error is signalled in
either case (the operation is a total function). -/
theorem stackString_appendInt_atomic (N : Nat) (s : StackString N) (_h : s.size ≤ N)
    (v : Int) :
    ((decRepr v).length ≤ N - s.size →
        (s.appendInt v).size = s.size + (decRepr v).length
        ∧ (s.appendInt v).content = s.content ++ decRepr v
        ∧ (s.appendInt v).data (s.appendInt v).size = 0)
    ∧ (¬ (decRepr v).length ≤ N - s.size → s.appendInt v = s) := by
  constructor
  · intro hfit
    have he : s.appendInt v
        = ⟨store (copyList (decRepr v) s.size s.data) (s.size + (decRepr v).length) 0,
           s.size + (decRepr v).length⟩ := by
      simp only [StackString.appendInt]
      rw [if_pos hfit]
    refine ⟨by rw [he], ?_, by rw [he]; simp [store]⟩
    rw [he]
    exact StackString.content_write s (decRepr v)
  · intro hnofit
    simp only [StackString.appendInt]
    rw [if_neg hnofit]

/-- Claim C3, witness: the theorem applied at capacity 4 to the
default-constructed string and the value 5, whose one-digit
representation fits; projection to the length update. -/
theorem stackString_appendInt_atomic_witness :
    ((StackString.mkEmpty 4 (fun _ => 0)).appendInt 5).size
      = (StackString.mkEmpty 4 (fun _ => 0)).size + (decRepr 5).length :=
  ((stackString_appendInt_atomic 4 (StackString.mkEmpty 4 (fun _ => 0)) (by decide)
    5).1 (by decide)).1

/-- Claim C4: appending s1 and then s2 to a fresh StackString<N>, with
truncation evaluated per call, yields exactly the same final logical
content (and length) as appending the single concatenation s1 ++ s2 to
a fresh StackString<N>. -/
theorem stackString_append_assoc (N : Nat) (g1 g2 : Nat → Nat) (s1 s2 : List Nat) :
    ((StackString.mkFromView N g1 s1).appendView s2).content
      = (StackString.mkFromView N g2 (s1 ++ s2)).content
    ∧ ((StackString.mkFromView N g1 s1).appendView s2).size
      = (StackString.mkFromView N g2 (s1 ++ s2)).size := by
  have hsz : (StackString.mkFromView N g1 s1).size = min N s1.length :=
    StackString.size_mkFromView N g1 s1
  constructor
  · rw [StackString.content_appendView, StackString.content_mkFromView, hsz,
      StackString.content_mkFromView, List.length_append,
      List.take_append_eq_append_take]
    by_cases hc : s1.length ≤ N
    · have e1 : min N s1.length = s1.length := by omega
      rw [e1, List.take_length,
        List.take_of_length_le (show s1.length ≤ min N (s1.length + s2.length) by omega)]
      have e5 : min s2.length (N - s1.length)
          = min N (s1.length + s2.length) - s1.length := by omega
      rw [e5]
    · have e1 : min N s1.length = N := by omega
      rw [e1]
      have e2 : min s2.length (N - N) = 0 := by omega
      have e3 : min N (s1.length + s2.length) = N := by omega
      have e4 : N - s1.length = 0 := by omega
      rw [e2, e3, e4]
  · rw [StackString.size_appendView, hsz, StackString.size_mkFromView,
      List.length_append]
    omega

/-! ## resize, clear, copy and move -/

theorem StackString.resize_eq {N : Nat} (s : StackString N) (count ch : Nat) :
    s.resize count ch
      = ⟨store (if min count N > s.size
            then fillRange s.data s.size (min count N) ch else s.data)
          (min count N) 0, min count N⟩ := by
  have hmin : (if count > N then N else count) = min count N := by split <;> omega
  simp only [StackString.resize, hmin]

theorem StackString.size_resize {N : Nat} (s : StackString N) (count ch : Nat) :
    (s.resize count ch).size = min count N := by
  rw [StackString.resize_eq]

theorem StackString.terminator_resize {N : Nat} (s : StackString N) (count ch : Nat) :
    (s.resize count ch).data (s.resize count ch).size = 0 := by
  rw [StackString.resize_eq]
  simp [store]

theorem StackString.content_resize {N : Nat} (s : StackString N) (count ch : Nat)
    (h : s.size ≤ N) :
    (s.resize count ch).content
      = s.content.take (min count N) ++ List.replicate (min count N - s.size) ch := by
  rw [StackString.resize_eq]
  apply List.ext_getElem
  · simp [StackString.content, List.length_take]
    omega
  · intro i h1 h2
    simp only [StackString.content, List.length_map, List.length_range] at h1
    simp only [StackString.content, List.getElem_map, List.getElem_range, store]
    rw [if_neg (by omega)]
    by_cases hg : s.size < min count N
    · rw [if_pos hg]
      simp only [fillRange]
      by_cases hi : i < s.size
      · rw [if_neg (by omega), List.getElem_append_left
          (by simp [StackString.content, List.length_take]; omega)]
        simp [StackString.content, List.getElem_take]
      · rw [if_pos (by omega), List.getElem_append_right
          (by simp [StackString.content, List.length_take]; omega)]
        simp [List.getElem_replicate]
    · rw [if_neg hg, List.getElem_append_left
        (by simp [StackString.content, List.length_take]; omega)]
      simp [StackString.content, List.getElem_take]

theorem StackString.data_resize_above {N : Nat} (s : StackString N) (count ch j : Nat)
    (hj : N < j) : (s.resize count ch).data j = s.data j := by
  rw [StackString.resize_eq]
  simp only [store]
  rw [if_neg (by omega)]
  split
  · simp only [fillRange]
    rw [if_neg (by omega)]
  · rfl

theorem StackString.clear_idem {N : Nat} (s : StackString N) :
    s.clear.clear = s.clear := by
  ext j
  · by_cases hj : j = 0 <;> simp [StackString.clear, store, hj]
  · rfl

theorem copyPrefixBytes_map_range (src : Nat → Nat) (count : Nat) (d : Nat → Nat) :
    (List.range count).map (copyPrefixBytes src count d)
      = (List.range count).map src := by
  apply List.map_congr_left
  intro a ha
  rw [List.mem_range] at ha
  simp [copyPrefixBytes, ha]

/-- Claim C7: resize(count, fill) clamps count to N, fills the grown
positions [old length, clamped count) with the fill byte, truncates
when shrinking, sets the length to the clamped count, re-terminates at
the new length, and writes no storage index greater than N; clear
resets the length to 0, re-terminates, and is idempotent. -/
theorem stackString_resize_clear (N : Nat) (s : StackString N) (h : s.size ≤ N)
    (count ch : Nat) :
    (s.resize count ch).size = min count N
    ∧ (s.resize count ch).content
        = s.content.take (min count N) ++ List.replicate (min count N - s.size) ch
    ∧ (s.resize count ch).data (s.resize count ch).size = 0
    ∧ (∀ j, N < j → (s.resize count ch).data j = s.data j)
    ∧ s.clear.size = 0 ∧ s.clear.data 0 = 0 ∧ s.clear.clear = s.clear :=
  ⟨StackString.size_resize s count ch,
   StackString.content_resize s count ch h,
   StackString.terminator_resize s count ch,
   fun j hj => StackString.data_resize_above s count ch j hj,
   rfl,
   by simp [StackString.clear, store],
   StackString.clear_idem s⟩

/-- Claim C7, witness: the theorem applied at capacity 4 to the
default-constructed string, resized to 2 with fill byte 7; projection
to the length clamp. -/
theorem stackString_resize_clear_witness :
    ((StackString.mkEmpty 4 (fun _ => 0)).resize 2 7).size = min 2 4 :=
  (stackString_resize_clear 4 (StackString.mkEmpty 4 (fun _ => 0)) (by decide) 2 7).1

/-- Claim C8: copy construction/assignment and move
construction/assignment all leave the destination with the source's
length and the source's bytes at [0, length] (terminator included); a
move additionally resets the source to the empty terminated state.  In
this functional model the source argument of a copy is passed by value
and left untouched by construction. -/
theorem stackString_copy_move (N : Nat) (g : Nat → Nat) (dest other : StackString N) :
    ((StackString.copyCtor g other).size = other.size
      ∧ (List.range (other.size + 1)).map (StackString.copyCtor g other).data
          = (List.range (other.size + 1)).map other.data)
    ∧ ((StackString.copyAssign dest other).size = other.size
      ∧ (List.range (other.size + 1)).map (StackString.copyAssign dest other).data
          = (List.range (other.size + 1)).map other.data)
    ∧ ((StackString.moveCtor g other).1.size = other.size
      ∧ (List.range (other.size + 1)).map (StackString.moveCtor g other).1.data
          = (List.range (other.size + 1)).map other.data
      ∧ (StackString.moveCtor g other).2.size = 0
      ∧ (StackString.moveCtor g other).2.data 0 = 0)
    ∧ ((StackString.moveAssign dest other).1.size = other.size
      ∧ (List.range (other.size + 1)).map (StackString.moveAssign dest other).1.data
          = (List.range (other.size + 1)).map other.data
      ∧ (StackString.moveAssign dest other).2.size = 0
      ∧ (StackString.moveAssign dest other).2.data 0 = 0) :=
  ⟨⟨rfl, copyPrefixBytes_map_range other.data (other.size + 1) g⟩,
   ⟨rfl, copyPrefixBytes_map_range other.data (other.size + 1) dest.data⟩,
   ⟨rfl, copyPrefixBytes_map_range other.data (other.size + 1) g,
    rfl, by simp [StackString.moveCtor, StackString.clear, store]⟩,
   ⟨rfl, copyPrefixBytes_map_range other.data (other.size + 1) dest.data,
    rfl, by simp [StackString.moveAssign, StackString.clear, store]⟩⟩

/-- Claim C5 (amended): for every allocator over a non-null region and
every request n such that used + n*element_size causes no size_t
wrap-around (stays below 2^64): if used + n*element_size ≤ capacity,
allocate returns the pointer region + used and advances used by
n*element_size bytes; otherwise it returns null with no side effect;
used never decreases over such a call; deallocate (release) is always
a no-op.  The unamended claim fails for requests whose byte count
wraps mod 2^64 — see the counterexample. -/
theorem fixedBufAllocator_allocate_spec (a : FixedBufAllocator) (base : Nat)
    (hb : a.buffer = some base) (n : Nat)
    (hov : a.used + n * a.elemSize < sizetMod) :
    (a.used + n * a.elemSize ≤ a.capacity →
        a.allocate n = (some (base + a.used),
          { a with used := a.used + n * a.elemSize }))
    ∧ (¬ a.used + n * a.elemSize ≤ a.capacity → a.allocate n = (none, a))
    ∧ a.used ≤ (a.allocate n).2.used
    ∧ (∀ p m, a.deallocate p m = a) := by
  have hb1 : n * a.elemSize % sizetMod = n * a.elemSize :=
    Nat.mod_eq_of_lt (by omega)
  have hb2 : (a.used + n * a.elemSize) % sizetMod = a.used + n * a.elemSize :=
    Nat.mod_eq_of_lt hov
  refine ⟨?_, ?_, ?_, fun p m => rfl⟩
  · intro hle
    simp only [FixedBufAllocator.allocate, hb, hb1, hb2]
    rw [if_pos hle]
  · intro hgt
    simp only [FixedBufAllocator.allocate, hb, hb1, hb2]
    rw [if_neg hgt]
  · simp only [FixedBufAllocator.allocate, hb, hb1, hb2]
    split
    · simp
    · exact Nat.le_refl a.used

/-- Claim C5, witness: the amended theorem applied to an allocator of
element size 1 over the region at address 100 with capacity 16 and a
fitting request of 10 bytes. -/
theorem fixedBufAllocator_allocate_spec_witness :
    (FixedBufAllocator.ofBuffer 1 (some 100) 16).allocate 10
      = (some (100 + (FixedBufAllocator.ofBuffer 1 (some 100) 16).used),
         { FixedBufAllocator.ofBuffer 1 (some 100) 16 with
             used := (FixedBufAllocator.ofBuffer 1 (some 100) 16).used
               + 10 * (FixedBufAllocator.ofBuffer 1 (some 100) 16).elemSize }) :=
  (fixedBufAllocator_allocate_spec (FixedBufAllocator.ofBuffer 1 (some 100) 16) 100
    rfl 10 (by decide)).1 (by decide)

/-- Claim C5, counterexample: the claim as stated fails because the
byte computation used + count*element_size is size_t arithmetic and
wraps mod 2^64.  Over a 16-byte region with 10 bytes already acquired,
the request for 2^64 - 5 one-byte elements has a true byte demand of
10 + (2^64 - 5) > 16, so the claim requires a null return with used
unchanged; the code instead computes (10 + (2^64-5)) mod 2^64 = 5 ≤ 16,
succeeds, and used DECREASES from 10 to 5 — also refuting the claim
that used never decreases. -/
theorem fixedBufAllocator_allocate_cex :
    (((FixedBufAllocator.ofBuffer 1 (some 0) 16).allocate 10).2.used
        + (sizetMod - 5) * 1 > 16)
    ∧ ((((FixedBufAllocator.ofBuffer 1 (some 0) 16).allocate 10).2.allocate
          (sizetMod - 5)).1 ≠ none)
    ∧ ((((FixedBufAllocator.ofBuffer 1 (some 0) 16).allocate 10).2.allocate
          (sizetMod - 5)).2.used
        < ((FixedBufAllocator.ofBuffer 1 (some 0) 16).allocate 10).2.used) := by
  decide

/-- Claim C6: two allocators compare equal iff their region pointers
are identical, regardless of capacity or used; rebinding to a
different element type shares the region, the capacity and the current
used offset, and the rebound allocator compares equal to the
original. -/
theorem fixedBufAllocator_eq_rebind (a b : FixedBufAllocator) (k : Nat) :
    (a.beqAlloc b = true ↔ a.buffer = b.buffer)
    ∧ a.bneAlloc b = !(a.beqAlloc b)
    ∧ ((a.rebindTo k).buffer = a.buffer ∧ (a.rebindTo k).capacity = a.capacity
        ∧ (a.rebindTo k).used = a.used ∧ (a.rebindTo k).elemSize = k)
    ∧ (a.rebindTo k).beqAlloc a = true := by
  refine ⟨?_, rfl, ⟨rfl, rfl, rfl, rfl⟩, ?_⟩
  · simp [FixedBufAllocator.beqAlloc]
  · simp [FixedBufAllocator.beqAlloc, FixedBufAllocator.rebindTo]

/-- Claim C9: an allocator constructed with a null buffer pointer
starts at used = 0, and every allocate call, whatever the count,
returns null and leaves the whole allocator state (in particular used)
unchanged. -/
theorem fixedBufAllocator_null_buffer (a : FixedBufAllocator) (h : a.buffer = none)
    (n elemSize cap : Nat) :
    a.allocate n = (none, a)
    ∧ (FixedBufAllocator.ofBuffer elemSize none cap).used = 0 := by
  constructor
  · simp only [FixedBufAllocator.allocate, h]
  · rfl

/-- Claim C9, witness: the theorem applied to the null-buffer allocator
of element size 2 and capacity 8 with request 3. -/
theorem fixedBufAllocator_null_buffer_witness :
    (FixedBufAllocator.ofBuffer 2 none 8).allocate 3
        = (none, FixedBufAllocator.ofBuffer 2 none 8)
    ∧ (FixedBufAllocator.ofBuffer 5 none 9).used = 0 :=
  fixedBufAllocator_null_buffer (FixedBufAllocator.ofBuffer 2 none 8) rfl 3 5 9

/-- Claim C10: operator+= for each supported argument kind and the
perfect-forwarding operator<< produce exactly the same string state as
the corresponding append overload — they are definitional
forwarders. -/
theorem stackString_operator_forwarders (N : Nat) (s : StackString N)
    (str : Option (List Nat)) (sv : List Nat) (c : Nat) (v : Int) (a : AppendArg) :
    s.opPlusEqCStr str = s.appendCStr str
    ∧ s.opPlusEqView sv = s.appendView sv
    ∧ s.opPlusEqChar c = s.appendChar c
    ∧ s.opPlusEqInt v = s.appendInt v
    ∧ s.opShl a = s.appendArg a :=
  ⟨rfl, rfl, rfl, rfl, rfl⟩
